import Mathlib

/-!
# Replication backlog of ardb (`src/repl/repl.cpp`)

A shallow embedding of the replication backlog and of the replication service
life cycle, followed by the properties proved about them.

Conventions of the embedding.

* A `char` is the natural number of its value; a `Buffer`, a `std::string` and
  the string held by a `Data` are lists of such bytes.
* `ReplMeta` is reached in the source through the cast
  `(ReplMeta*) swal_user_meta(m_wal)` over a raw byte area. Its three `char`
  arrays `select_ns`, `serverkey`, `replkey` are declared one after the other
  and have alignment 1, so they lie back to back; they are kept as one byte
  memory addressed from the start of the record, with `select_ns` at 0.
* `ARDB_MAX_NAMESPACE_SIZE` is defined in a header that is not part of the
  sources at hand; every definition that needs it takes it as its first
  argument.
* Buffer lengths are returned as integers without wrap-around: `Buffer` is
  declared elsewhere and its sizes are taken to fit the `int` result.
-/

namespace Ardb

/-- One `char`, by its numeric value. -/
abbrev Byte := Nat

/-- Contents of a `Buffer` or of a `std::string`. -/
abbrev Buffer := List Byte

/-- The macro `SERVER_KEY_SIZE`. -/
def SERVER_KEY_SIZE : Nat := 40

/-! ## Raw memory helpers -/

/-- Result of `memcpy(mem + dst, src, n)`. Bytes of `src` past its end read as 0;
every call of the source passes `n ≤ src.length`. -/
def memcpy (mem : Nat → Byte) (dst : Nat) (src : Buffer) (n : Nat) : Nat → Byte :=
  fun i => if dst ≤ i ∧ i < dst + n then src.getD (i - dst) 0 else mem i

/-- Result of `memset(mem + dst, v, n)`. -/
def memset (mem : Nat → Byte) (dst : Nat) (v : Byte) (n : Nat) : Nat → Byte :=
  fun i => if dst ≤ i ∧ i < dst + n then v else mem i

/-- Result of the single store `mem[idx] = v`. -/
def poke (mem : Nat → Byte) (idx : Nat) (v : Byte) : Nat → Byte :=
  fun i => if i = idx then v else mem i

/-- The `n` bytes found at `mem + off`, as `std::string::assign(mem + off, n)` reads them. -/
def peek (mem : Nat → Byte) (off n : Nat) : Buffer :=
  (List.range n).map fun i => mem (off + i)

/-- The call `strncmp(s1, s2, n)`: the first differing position among the first `n`
decides, and the comparison stops with 0 at a NUL common to both. -/
def strncmp (s1 s2 : Nat → Byte) : Nat → Int
  | 0 => 0
  | n + 1 =>
    if s1 0 ≠ s2 0 then (s1 0 : Int) - (s2 0 : Int)
    else if s1 0 = 0 then 0
    else strncmp (fun i => s1 (i + 1)) (fun i => s2 (i + 1)) n

/-- The array `ns.CStr()` points to: the bytes of `ns`, then the terminating NUL. -/
def CStr (ns : Buffer) : Nat → Byte := fun i => ns.getD i 0

/-! ## CRC-64 -/

/-- Modelled from the spec: `redis/crc64.h` is not among the sources. The spec
names the checksum CRC-64; this is the Jones polynomial `0xad93d23594c935a9` in
reflected form, the one Redis uses. -/
def crc64_poly : Nat := 0x95AC9329AC4BC9B5

/-- Modelled from the spec: one shift of the reflected CRC-64 register. -/
def crc64_shift (c : Nat) : Nat :=
  if c % 2 = 1 then (c >>> 1) ^^^ crc64_poly else c >>> 1

/-- Modelled from the spec: folding one byte into the CRC-64 register. -/
def crc64_byte (c : Nat) (b : Byte) : Nat :=
  crc64_shift^[8] (c ^^^ (b % 256))

/-- Modelled from the spec: `crc64(crc, s, l)` of `redis/crc64.h`, which is not
among the sources: the CRC-64 of the bytes `s` folded into the seed `crc`. -/
def crc64 (crc : Nat) (s : Buffer) : Nat :=
  s.foldl crc64_byte crc

/-! ## ReplMeta -/

/-- The record `ReplMeta`. `chars` is the memory of the three adjacent `char`
arrays: `select_ns` occupies `[0, N)`, `serverkey` occupies `[N, N + 40)` and
`replkey` occupies `[N + 40, N + 80)` where `N` is `ARDB_MAX_NAMESPACE_SIZE`.
`select_ns_size` is a `uint16`. -/
structure ReplMeta where
  chars : Nat → Byte
  select_ns_size : Nat
  replkey_self_gen : Bool

/-- Offset of `select_ns` in the record. -/
def select_ns_off : Nat := 0

/-- Offset of `serverkey` in the record. -/
def serverkey_off (N : Nat) : Nat := N

/-- Offset of `replkey` in the record. -/
def replkey_off (N : Nat) : Nat := N + SERVER_KEY_SIZE

/-- Conversion of a length to `uint16`, as the assignment to `select_ns_size` does. -/
def to_uint16 (n : Nat) : Nat := n % 65536

/-- The 40 bytes of `meta->serverkey`. -/
def ReplMeta.serverkey (N : Nat) (m : ReplMeta) : Buffer :=
  peek m.chars (serverkey_off N) SERVER_KEY_SIZE

/-- The 40 bytes of `meta->replkey`. -/
def ReplMeta.replkey (N : Nat) (m : ReplMeta) : Buffer :=
  peek m.chars (replkey_off N) SERVER_KEY_SIZE

/-! ## The ring WAL -/

/-- Modelled from the spec: the ring WAL primitive (`swal_t` and the `swal_*`
functions) is not among the sources. The state follows section 3 of the spec:
`log` holds every byte appended since numbering started at logical offset
`base` with checksum `seed` (0 and 0 for a new log, the arguments of the last
`reset` otherwise), `start_offset` is the smallest offset still retained,
`max_file_size` is the capacity, `user_meta` is the inline metadata area, and
`slice` bounds the pieces `replay` hands to its callback (at most `slice + 1`
bytes each). -/
structure swal_t where
  max_file_size : Nat
  slice : Nat
  base : Nat
  seed : Nat
  log : Buffer
  start_offset : Nat
  user_meta : ReplMeta

/-- Modelled from the spec: `swal_start_offset`. -/
def swal_start_offset (w : swal_t) : Nat := w.start_offset

/-- Modelled from the spec: `swal_end_offset`, the next logical offset to be written. -/
def swal_end_offset (w : swal_t) : Nat := w.base + w.log.length

/-- Modelled from the spec: `swal_cksm`, the CRC-64 of every byte ever appended. -/
def swal_cksm (w : swal_t) : Nat := crc64 w.seed w.log

/-- Modelled from the spec: `swal_append`. The bytes extend the log and
`start_offset` advances as far as needed to keep the window within capacity. -/
def swal_append (w : swal_t) (bytes : Buffer) : swal_t :=
  { w with
    log := w.log ++ bytes
    start_offset := max w.start_offset (w.base + (w.log ++ bytes).length - w.max_file_size) }

/-- Modelled from the spec: `swal_reset`. All data is discarded and numbering
resumes at `offset` with checksum `cksm`. -/
def swal_reset (w : swal_t) (offset cksm : Nat) : swal_t :=
  { w with base := offset, seed := cksm, log := [], start_offset := offset }

/-- Pieces of at most `k + 1` bytes covering `xs` in order; `fuel` bounds the number of pieces. -/
def slices (k : Nat) : Nat → Buffer → List Buffer
  | 0, _ => []
  | fuel + 1, xs =>
    if xs = [] then [] else xs.take (k + 1) :: slices k fuel (xs.drop (k + 1))

/-- Modelled from the spec: `swal_replay(wal, offset, len, cb, data)`. When the
window `[offset, offset + len)` is wholly retained the callback receives
contiguous pieces covering it, in order, and the call returns 0; otherwise it
fails with -1 and the callback is not run. -/
def swal_replay {σ : Type} (w : swal_t) (offset len : Nat)
    (cb : Buffer → σ → σ) (data : σ) : Int × σ :=
  if swal_start_offset w ≤ offset ∧ offset + len ≤ swal_end_offset w then
    let window := (w.log.drop (offset - w.base)).take len
    (0, (slices w.slice window.length window).foldl (fun d piece => cb piece d) data)
  else (-1, data)

/-- Well-formed WAL state: the retained window lies inside the numbered log and
the checksum seed is a 64-bit value. -/
def swal_t.wf (w : swal_t) : Prop :=
  w.base ≤ w.start_offset ∧ w.start_offset ≤ swal_end_offset w ∧ w.seed < 2 ^ 64

instance (w : swal_t) : Decidable w.wf := by
  unfold swal_t.wf; exact inferInstance

/-! ## ReplicationBacklog: checksum validation -/

/-- The static function `cksm_callback`, acting on the `uint64_t` behind `data`. -/
def cksm_callback (log : Buffer) (cksm : Nat) : Nat := crc64 cksm log

/-- Outcome of `IsValidOffsetCksm`: the returned `bool` and the `swal_replay`
calls made, each as `(offset, length)`. -/
structure OffsetCksmResult where
  valid : Bool
  replays : List (Nat × Nat)
deriving DecidableEq, Repr

/-- `ReplicationBacklog::IsValidOffsetCksm(int64_t offset, uint64_t cksm)` on the
WAL behind `m_wal`. -/
def IsValidOffsetCksm (w : swal_t) (offset : Int) (cksm : Nat) : OffsetCksmResult :=
  let valid_offset : Bool :=
    decide (offset > 0) && decide (offset ≤ (swal_end_offset w : Int))
      && decide (offset ≥ (swal_start_offset w : Int))
  if !valid_offset then ⟨false, []⟩
  else if 0 = cksm then ⟨true, []⟩
  else
    let dest_cksm := swal_cksm w
    let end_offset := swal_end_offset w
    let r := swal_replay w offset.toNat (end_offset - offset.toNat) cksm_callback cksm
    ⟨decide (r.2 = dest_cksm), [(offset.toNat, end_offset - offset.toNat)]⟩

/-! ## Configuration and command frames -/

/-- The fields of `g_db->GetConf()` read by the code below. An empty
`master_host` means the instance is a master. -/
structure ArdbConfig where
  repl_backlog_size : Int
  master_host : Buffer

/-- The parts of a `RedisCommandFrame` the backlog touches: command name,
arguments, the raw protocol bytes it was parsed from and the inline flag. -/
structure RedisCommandFrame where
  cmd : Buffer
  args : List Buffer
  raw_protocol : Buffer
  is_inline : Bool
deriving DecidableEq, Repr

/-- The frame built by `RedisCommandFrame select_cmd("select")` followed by
`select_cmd.AddArg(ns.AsString())`. -/
def select_cmd (ns : Buffer) : RedisCommandFrame :=
  { cmd := [115, 101, 108, 101, 99, 116], args := [ns], raw_protocol := [], is_inline := false }

/-- A multi-bulk rendering of a frame (`*<n>`, then `$<len>` and the bytes for
the name and each argument, every line closed by CR LF). The encoder of the
repository, `RedisCommandEncoder::Encode`, is declared elsewhere and is an
argument of every definition that calls it; this rendering only serves to
evaluate them on concrete inputs. -/
def resp_encode (f : RedisCommandFrame) : Buffer :=
  let crlf : Buffer := [13, 10]
  let num (n : Nat) : Buffer := (Nat.toDigits 10 n).map Char.toNat
  let bulk (b : Buffer) : Buffer := [36] ++ num b.length ++ crlf ++ b ++ crlf
  [42] ++ num (f.args.length + 1) ++ crlf ++ bulk f.cmd ++ (f.args.map bulk).flatten

/-! ## ReplicationBacklog -/

/-- The object `ReplicationBacklog`: `m_wal` (`none` for `NULL`) and `tmpid`, the
function-local `static std::string` of `GetReplKey`, `none` until it has been
initialised by the first call that reaches it. -/
structure ReplicationBacklog where
  m_wal : Option swal_t
  tmpid : Option Buffer

/-- The constructor `ReplicationBacklog::ReplicationBacklog()`. -/
def ReplicationBacklog.new : ReplicationBacklog := { m_wal := none, tmpid := none }

/-- Calls into collaborators, in the order they are made. -/
inductive Effect where
  | swal_open
  | master_init
  | slave_init
  | start
  | get_repl_cmd
  | async_io
deriving DecidableEq, Repr

/-- Answers of the collaborators during one initialisation: the return code of
`swal_open` and the log it leaves behind `m_wal` (meaningful when the code is
0), the string `random_hex_string(SERVER_KEY_SIZE)` yields, and the return codes
of `m_master.Init()` and `m_slave.Init()`. -/
structure InitEnv where
  swal_open_err : Int
  swal_open_wal : swal_t
  randomkey : Buffer
  master_init : Int
  slave_init : Int

/-- Outcome of an initialisation: return code, object afterwards, calls made. -/
structure InitResult (α : Type) where
  ret : Int
  state : α
  effects : List Effect

/-- `ReplicationBacklog::Init()`. -/
def ReplicationBacklog.Init (N : Nat) (conf : ArdbConfig) (env : InitEnv)
    (b : ReplicationBacklog) : InitResult ReplicationBacklog :=
  if conf.repl_backlog_size ≤ 0 then
    { ret := -1, state := b, effects := [] }
  else
    let err := env.swal_open_err
    if 0 ≠ err then
      { ret := err, state := b, effects := [Effect.swal_open] }
    else
      let w := env.swal_open_wal
      let m := w.user_meta
      if m.chars (serverkey_off N) = 0 then
        let randomkey := env.randomkey
        let c1 := memcpy m.chars (serverkey_off N) randomkey SERVER_KEY_SIZE
        let c2 := memcpy c1 (replkey_off N) randomkey SERVER_KEY_SIZE
        let c3 := memset c2 select_ns_off 0 N
        let m1 : ReplMeta := { m with chars := c3, replkey_self_gen := true }
        { ret := 0, state := { b with m_wal := some { w with user_meta := m1 } },
          effects := [Effect.swal_open] }
      else
        { ret := 0, state := { b with m_wal := some w }, effects := [Effect.swal_open] }

/-- `ReplicationBacklog::GetReplKey()`; `rnd` is what `random_hex_string` would
yield were it called now. -/
def ReplicationBacklog.GetReplKey (N : Nat) (b : ReplicationBacklog) (rnd : Buffer) :
    Buffer × ReplicationBacklog :=
  match b.m_wal with
  | none =>
    match b.tmpid with
    | some tmpid => (tmpid, b)
    | none => (rnd, { b with tmpid := some rnd })
  | some w => (w.user_meta.replkey N, b)

/-- `ReplicationBacklog::IsReplKeySelfGen()` on the WAL behind `m_wal`. -/
def IsReplKeySelfGen (w : swal_t) : Bool := w.user_meta.replkey_self_gen

/-- `ReplicationBacklog::SetReplKey(const std::string& str)` on the WAL behind `m_wal`. -/
def SetReplKey (N : Nat) (w : swal_t) (str : Buffer) : swal_t :=
  let m := w.user_meta
  let n := if str.length < SERVER_KEY_SIZE then str.length else SERVER_KEY_SIZE
  { w with user_meta :=
      { m with chars := memcpy m.chars (replkey_off N) str n, replkey_self_gen := false } }

/-- `ReplicationBacklog::WriteWAL(const Buffer& cmd)` on the WAL behind `m_wal`. -/
def WriteWAL (w : swal_t) (cmd : Buffer) : Int × swal_t :=
  ((cmd.length : Int), swal_append w cmd)

/-- `ReplicationBacklog::WriteWAL(const Data& ns, const Buffer& cmd)`, the
reactor-side write, on the WAL behind `m_wal`; `Encode` stands for
`RedisCommandEncoder::Encode` into an empty buffer. -/
def WriteWAL_ns (conf : ArdbConfig) (Encode : RedisCommandFrame → Buffer)
    (w : swal_t) (ns cmd : Buffer) : Int × swal_t :=
  let m := w.user_meta
  if m.select_ns_size ≠ ns.length
      ∨ strncmp (CStr ns) (fun i => m.chars (select_ns_off + i)) ns.length ≠ 0 then
    if conf.master_host.isEmpty then
      let select := Encode (select_cmd ns)
      let r1 := WriteWAL w select
      let c1 := memcpy m.chars select_ns_off ns ns.length
      let c2 := poke c1 (select_ns_off + ns.length) 0
      let m1 : ReplMeta := { m with chars := c2, select_ns_size := to_uint16 ns.length }
      let r2 := WriteWAL { r1.2 with user_meta := m1 } cmd
      (r1.1 + r2.1, r2.2)
    else
      WriteWAL w cmd
  else
    WriteWAL w cmd

/-- `ReplicationBacklog::SetCurrentNamespace(const std::string& ns)`. -/
def SetCurrentNamespace (w : swal_t) (ns : Buffer) : swal_t :=
  let m := w.user_meta
  { w with user_meta :=
      { m with select_ns_size := to_uint16 ns.length,
               chars := memcpy m.chars select_ns_off ns ns.length } }

/-- `ReplicationBacklog::CurrentNamespace()`. -/
def CurrentNamespace (w : swal_t) : Buffer :=
  let m := w.user_meta
  if m.select_ns_size > 0 then peek m.chars select_ns_off m.select_ns_size else []

/-- `ReplicationBacklog::ClearCurrentNamespace()`. -/
def ClearCurrentNamespace (w : swal_t) : swal_t :=
  { w with user_meta := { w.user_meta with select_ns_size := 0 } }

/-- `ReplicationBacklog::ResetWALOffsetCksm`. -/
def ResetWALOffsetCksm (w : swal_t) (offset cksm : Nat) : swal_t := swal_reset w offset cksm

/-! ## Envelopes and the replication service -/

/-- The struct `ReplCommand`: a namespace and the encoded command. -/
structure ReplCommand where
  ns : Buffer
  cmdbuf : Buffer
deriving DecidableEq, Repr

/-- The static function `get_repl_cmd` over the pool `g_repl_cmd_buffer`: the
envelope handed out and the pool left. -/
def get_repl_cmd (pool : List ReplCommand) : ReplCommand × List ReplCommand :=
  match pool with
  | repl_cmd :: rest => ({ repl_cmd with cmdbuf := [] }, rest)
  | [] => ({ ns := [], cmdbuf := [] }, [])

/-- The static function `recycle_repl_cmd` over the pool `g_repl_cmd_buffer`. -/
def recycle_repl_cmd (pool : List ReplCommand) (cmd : ReplCommand) : List ReplCommand :=
  if pool.length ≥ 10 then pool else pool ++ [cmd]

/-- The object `ReplicationService` together with the two queues its producers
touch: the file-level pool `g_repl_cmd_buffer` and the tasks handed to
`m_io_serv` through `AsyncIO` that are still pending. -/
structure ReplicationService where
  m_inited : Bool
  m_repl_backlog : ReplicationBacklog
  g_repl_cmd_buffer : List ReplCommand
  async_tasks : List ReplCommand

/-- The constructor `ReplicationService::ReplicationService()`, with empty queues. -/
def ReplicationService.new : ReplicationService :=
  { m_inited := false, m_repl_backlog := ReplicationBacklog.new,
    g_repl_cmd_buffer := [], async_tasks := [] }

/-- `ReplicationService::IsInited()`. -/
def ReplicationService.IsInited (s : ReplicationService) : Bool := s.m_inited

/-- `ReplicationService::Init()`. `Start()` spawns the reactor thread, whose
`Run()` sets `m_inited` before it enters the event loop; the wait loop of `Init`
ends once that store is visible, so after `Start()` the flag is set. -/
def ReplicationService.Init (N : Nat) (conf : ArdbConfig) (env : InitEnv)
    (s : ReplicationService) : InitResult ReplicationService :=
  if s.IsInited then
    { ret := 0, state := s, effects := [] }
  else
    let r := s.m_repl_backlog.Init N conf env
    let s1 := { s with m_repl_backlog := r.state }
    if 0 ≠ r.ret then
      { ret := 0, state := s1, effects := r.effects }
    else
      let err := env.master_init
      if 0 ≠ err then
        { ret := err, state := s1, effects := r.effects ++ [Effect.master_init] }
      else
        let err := env.slave_init
        if 0 ≠ err then
          { ret := err, state := s1,
            effects := r.effects ++ [Effect.master_init, Effect.slave_init] }
        else
          { ret := 0, state := { s1 with m_inited := true },
            effects := r.effects ++ [Effect.master_init, Effect.slave_init, Effect.start] }

/-- Outcome of a producer-side write: return code, service afterwards, calls made. -/
structure WriteResult where
  ret : Int
  state : ReplicationService
  effects : List Effect

/-- `ReplicationBacklog::WriteWAL(const Data& ns, RedisCommandFrame& cmd)`, the
producer-side write; `Encode` stands for `RedisCommandEncoder::Encode`. -/
def WriteWAL_frame (Encode : RedisCommandFrame → Buffer) (s : ReplicationService)
    (ns : Buffer) (cmd : RedisCommandFrame) : WriteResult :=
  if !s.IsInited then
    { ret := -1, state := s, effects := [] }
  else
    let g := get_repl_cmd s.g_repl_cmd_buffer
    let repl_cmd := { g.1 with ns := ns }
    let raw_protocol := cmd.raw_protocol
    let filled : ReplCommand :=
      if raw_protocol ≠ [] ∧ !cmd.is_inline then
        { repl_cmd with cmdbuf := repl_cmd.cmdbuf ++ raw_protocol }
      else
        { repl_cmd with cmdbuf := repl_cmd.cmdbuf ++ Encode cmd }
    { ret := 0,
      state := { s with g_repl_cmd_buffer := g.2, async_tasks := s.async_tasks ++ [filled] },
      effects := [Effect.get_repl_cmd, Effect.async_io] }

/-! ## Sequences of reactor-side writes -/

/-- The reactor processing the envelopes `(ns, cmd)` in order with `WriteWAL_ns`:
the values returned and the log afterwards. -/
def run_WriteWAL_ns (conf : ArdbConfig) (Encode : RedisCommandFrame → Buffer) :
    swal_t → List (Buffer × Buffer) → List Int × swal_t
  | w, [] => ([], w)
  | w, e :: es =>
    let r := WriteWAL_ns conf Encode w e.1 e.2
    let rest := run_WriteWAL_ns conf Encode r.2 es
    (r.1 :: rest.1, rest.2)

/-- The stream the spec prescribes on a master for envelopes processed after the
namespace `prev`: before each command whose namespace differs from that of the
preceding one, the encoding of the command `select` (the bytes
`115 101 108 101 99 116`) with that namespace as its only argument. -/
def select_stream (Encode : RedisCommandFrame → Buffer) :
    Buffer → List (Buffer × Buffer) → Buffer
  | _, [] => []
  | prev, e :: es =>
    (if e.1 ≠ prev then
        Encode { cmd := [115, 101, 108, 101, 99, 116], args := [e.1], raw_protocol := [],
                 is_inline := false }
      else []) ++ e.2 ++ select_stream Encode e.1 es

/-- A master: `master_host` is empty. -/
def master_conf : ArdbConfig := { repl_backlog_size := 1024, master_host := [] }

/-- A follower of the host `m`. -/
def slave_conf : ArdbConfig := { repl_backlog_size := 1024, master_host := [109] }

/-! ## Sequences of calls on the service -/

/-- A call made on the service by the rest of the process: `Init()` with the
answers its collaborators would give, the producer-side `WriteWAL(ns, cmd)`, or
`GetReplKey()` with the string `random_hex_string` would yield at that moment. -/
inductive Call where
  | Init (env : InitEnv)
  | WriteWAL (ns : Buffer) (cmd : RedisCommandFrame)
  | GetReplKey (rnd : Buffer)

/-- What a call gives back: a return code with the collaborator calls made, or a key. -/
inductive Reply where
  | code (ret : Int) (effects : List Effect)
  | key (k : Buffer)
deriving DecidableEq, Repr

/-- One call on the service. -/
def ReplicationService.call (N : Nat) (conf : ArdbConfig) (Encode : RedisCommandFrame → Buffer)
    (s : ReplicationService) : Call → Reply × ReplicationService
  | Call.Init env =>
    let r := s.Init N conf env
    (Reply.code r.ret r.effects, r.state)
  | Call.WriteWAL ns cmd =>
    let r := WriteWAL_frame Encode s ns cmd
    (Reply.code r.ret r.effects, r.state)
  | Call.GetReplKey rnd =>
    let r := s.m_repl_backlog.GetReplKey N rnd
    (Reply.key r.1, { s with m_repl_backlog := r.2 })

/-- A sequence of calls on the service, in order. -/
def ReplicationService.run (N : Nat) (conf : ArdbConfig) (Encode : RedisCommandFrame → Buffer) :
    ReplicationService → List Call → List Reply × ReplicationService
  | s, [] => ([], s)
  | s, c :: cs =>
    let r := s.call N conf Encode c
    let rest := ReplicationService.run N conf Encode r.2 cs
    (r.1 :: rest.1, rest.2)

/-- The reply the spec gives a call in disabled mode, `k` being the key of the
process: `Init` succeeds and touches nothing, a producer-side write is turned
away with -1 and touches nothing, `GetReplKey` yields `k`. -/
def disabled_reply (k : Buffer) : Call → Reply
  | Call.Init _ => Reply.code 0 []
  | Call.WriteWAL _ _ => Reply.code (-1) []
  | Call.GetReplKey _ => Reply.key k

/-- The string `random_hex_string` yields at the first `GetReplKey` call of a
sequence, if there is one. -/
def first_rnd : List Call → Option Buffer
  | [] => none
  | Call.GetReplKey rnd :: _ => some rnd
  | _ :: cs => first_rnd cs

/-! ## Concrete states used to evaluate the definitions -/

/-- A metadata area filled with zero bytes, as in a newly created directory. -/
def zero_meta : ReplMeta := { chars := fun _ => 0, select_ns_size := 0, replkey_self_gen := false }

/-- A newly created log of capacity 1024: nothing appended, offsets and checksum 0. -/
def fresh_wal : swal_t :=
  { max_file_size := 1024, slice := 3, base := 0, seed := 0, log := [], start_offset := 0,
    user_meta := zero_meta }

/-- A log holding eight bytes whose CRC-64 is 1, none of them overwritten. -/
def eight_byte_wal : swal_t :=
  { fresh_wal with log := [107, 147, 151, 88, 83, 38, 89, 43] }

/-- A log of capacity 4 after twelve bytes: offsets below 8 have been overwritten. -/
def wrapped_wal : swal_t :=
  swal_append { fresh_wal with max_file_size := 4 } [1, 2, 3, 4, 5, 6, 7, 8, 9, 10, 11, 12]

/-- A metadata area whose key fields are zero while a namespace length of 3 is recorded. -/
def stale_meta : ReplMeta := { zero_meta with select_ns_size := 3 }

/-- The key `aaaa...a`, forty hexadecimal digits. -/
def key_a : Buffer := List.replicate 40 97

/-- The key `bbbb...b`, forty hexadecimal digits. -/
def key_b : Buffer := List.replicate 40 98

/-- An initialisation that opens the log `w` and draws the key `k`. -/
def open_env (w : swal_t) (k : Buffer) : InitEnv :=
  { swal_open_err := 0, swal_open_wal := w, randomkey := k, master_init := 0, slave_init := 0 }

/-- A log found in a directory never initialised before, though not blank:
`serverkey` is zero and no namespace length is recorded, while `select_ns`
holds the bytes 7 and the area from `replkey` on holds the bytes 9
(`ARDB_MAX_NAMESPACE_SIZE = 16`). -/
def unkeyed_wal : swal_t :=
  { fresh_wal with user_meta :=
      { chars := fun i => if i < 16 then 7 else if 56 ≤ i then 9 else 0,
        select_ns_size := 0, replkey_self_gen := false } }

/-- A call that changes the metadata of an open backlog: one of the four
mutators of `ReplicationBacklog`, or a restart of the process, in which `Init`
runs again on the persisted log and would draw `randomkey`. -/
inductive BacklogOp where
  | SetReplKey (str : Buffer)
  | SetCurrentNamespace (ns : Buffer)
  | ClearCurrentNamespace
  | WriteWAL (ns cmd : Buffer)
  | Restart (randomkey : Buffer)

/-- The log after one such call. -/
def BacklogOp.apply (N : Nat) (conf : ArdbConfig) (Encode : RedisCommandFrame → Buffer)
    (w : swal_t) : BacklogOp → swal_t
  | BacklogOp.SetReplKey str => Ardb.SetReplKey N w str
  | BacklogOp.SetCurrentNamespace ns => Ardb.SetCurrentNamespace w ns
  | BacklogOp.ClearCurrentNamespace => Ardb.ClearCurrentNamespace w
  | BacklogOp.WriteWAL ns cmd => (WriteWAL_ns conf Encode w ns cmd).2
  | BacklogOp.Restart randomkey =>
    ((ReplicationBacklog.new.Init N conf (open_env w randomkey)).state.m_wal).getD w

/-- The calls the claims consider: namespaces of at most `N` bytes, and keys as
`random_hex_string(40)` draws them, forty bytes none of which is NUL. -/
def BacklogOp.in_range (N : Nat) : BacklogOp → Prop
  | BacklogOp.SetReplKey _ => True
  | BacklogOp.SetCurrentNamespace ns => ns.length ≤ N
  | BacklogOp.ClearCurrentNamespace => True
  | BacklogOp.WriteWAL ns _ => ns.length ≤ N
  | BacklogOp.Restart randomkey => randomkey.length = 40 ∧ 0 ∉ randomkey

/-- An initialisation in which `swal_open` fails with code 5. -/
def failing_env : InitEnv :=
  { swal_open_err := 5, swal_open_wal := fresh_wal, randomkey := key_a,
    master_init := 0, slave_init := 0 }

/-- A configuration with the backlog disabled. -/
def disabled_conf : ArdbConfig := { repl_backlog_size := 0, master_host := [] }

/-- A frame for `set k v`, carrying no raw protocol bytes. -/
def set_cmd : RedisCommandFrame :=
  { cmd := [115, 101, 116], args := [[107], [118]], raw_protocol := [], is_inline := false }

/-! ## Facts about the memory helpers -/

theorem peek_length (mem : Nat → Byte) (off n : Nat) : (peek mem off n).length = n := by
  simp [peek]

theorem peek_congr (m1 m2 : Nat → Byte) (off n : Nat)
    (h : ∀ i, i < n → m1 (off + i) = m2 (off + i)) : peek m1 off n = peek m2 off n := by
  unfold peek
  apply List.map_congr_left
  intro i hi
  exact h i (List.mem_range.mp hi)

theorem peek_memcpy_self (mem : Nat → Byte) (dst : Nat) (src : Buffer) :
    peek (memcpy mem dst src src.length) dst src.length = src := by
  apply List.ext_getElem
  · simp [peek]
  · intro i h1 h2
    have hi : i < src.length := by simpa [peek] using h1
    simp [peek, memcpy, hi, List.getD_eq_getElem?_getD, List.getElem?_eq_getElem]

theorem peek_memcpy_take (mem : Nat → Byte) (dst : Nat) (src : Buffer) (n : Nat)
    (hn : n ≤ src.length) : peek (memcpy mem dst src n) dst n = src.take n := by
  apply List.ext_getElem
  · simp [peek, hn]
  · intro i h1 h2
    have hi : i < n := by simpa [peek] using h1
    have hi2 : i < src.length := by omega
    simp [peek, memcpy, hi, List.getD_eq_getElem?_getD, List.getElem?_eq_getElem, hi2]

theorem peek_memcpy_disjoint (mem : Nat → Byte) (dst : Nat) (src : Buffer) (n off k : Nat)
    (h : off + k ≤ dst ∨ dst + n ≤ off) :
    peek (memcpy mem dst src n) off k = peek mem off k := by
  apply peek_congr
  intro i hi
  unfold memcpy
  rw [if_neg (by omega)]

theorem peek_memset_disjoint (mem : Nat → Byte) (dst : Nat) (v : Byte) (n off k : Nat)
    (h : off + k ≤ dst ∨ dst + n ≤ off) :
    peek (memset mem dst v n) off k = peek mem off k := by
  apply peek_congr
  intro i hi
  unfold memset
  rw [if_neg (by omega)]

theorem peek_poke_disjoint (mem : Nat → Byte) (idx : Nat) (v : Byte) (off k : Nat)
    (h : idx < off ∨ off + k ≤ idx) :
    peek (poke mem idx v) off k = peek mem off k := by
  apply peek_congr
  intro i hi
  unfold poke
  rw [if_neg (by omega)]

theorem peek_add (mem : Nat → Byte) (off a b : Nat) :
    peek mem off (a + b) = peek mem off a ++ peek mem (off + a) b := by
  unfold peek
  rw [List.range_add, List.map_append, List.map_map]
  congr 1
  apply List.map_congr_left
  intro i _
  simp [Nat.add_assoc]

theorem drop_peek (mem : Nat → Byte) (off a k : Nat) (ha : a ≤ k) :
    (peek mem off k).drop a = peek mem (off + a) (k - a) := by
  have hk : k = a + (k - a) := by omega
  conv_lhs => rw [hk, peek_add]
  rw [List.drop_left' (peek_length mem off a)]

/-! ## Facts about CRC-64 -/

theorem crc64_shift_lt (c : Nat) (hc : c < 2 ^ 64) : crc64_shift c < 2 ^ 64 := by
  have h1 : c >>> 1 < 2 ^ 64 := by
    rw [Nat.shiftRight_eq_div_pow]; omega
  unfold crc64_shift
  split
  · exact Nat.xor_lt_two_pow h1 (by decide)
  · exact h1

theorem crc64_shift_top (c : Nat) (hc : c < 2 ^ 64) :
    (crc64_shift c).testBit 63 = decide (c % 2 = 1) := by
  have h1 : (c >>> 1).testBit 63 = false := by
    apply Nat.testBit_lt_two_pow
    rw [Nat.shiftRight_eq_div_pow]; omega
  have hp : crc64_poly.testBit 63 = true := by decide
  unfold crc64_shift
  split
  · next h => simp [Nat.testBit_xor, h1, hp, h]
  · next h => simp [h1, h]

theorem crc64_shift_inj (c d : Nat) (hc : c < 2 ^ 64) (hd : d < 2 ^ 64)
    (h : crc64_shift c = crc64_shift d) : c = d := by
  have ht : decide (c % 2 = 1) = decide (d % 2 = 1) := by
    rw [← crc64_shift_top c hc, ← crc64_shift_top d hd, h]
  have hpar : c % 2 = d % 2 := by
    have := decide_eq_decide.mp ht
    omega
  have hhalf : c >>> 1 = d >>> 1 := by
    unfold crc64_shift at h
    by_cases h1 : c % 2 = 1
    · have h2 : d % 2 = 1 := by omega
      rw [if_pos h1, if_pos h2] at h
      exact Nat.xor_left_injective h
    · have h2 : ¬ d % 2 = 1 := by omega
      rw [if_neg h1, if_neg h2] at h
      exact h
  rw [Nat.shiftRight_eq_div_pow, Nat.shiftRight_eq_div_pow] at hhalf
  omega

theorem crc64_shift_iter_lt (k c : Nat) (hc : c < 2 ^ 64) : crc64_shift^[k] c < 2 ^ 64 := by
  induction k generalizing c with
  | zero => simpa using hc
  | succ k ih =>
    rw [Function.iterate_succ_apply]
    exact ih _ (crc64_shift_lt c hc)

theorem crc64_shift_iter_inj (k c d : Nat) (hc : c < 2 ^ 64) (hd : d < 2 ^ 64)
    (h : crc64_shift^[k] c = crc64_shift^[k] d) : c = d := by
  induction k generalizing c d with
  | zero => simpa using h
  | succ k ih =>
    rw [Function.iterate_succ_apply, Function.iterate_succ_apply] at h
    exact crc64_shift_inj c d hc hd
      (ih _ _ (crc64_shift_lt c hc) (crc64_shift_lt d hd) h)

theorem crc64_byte_lt (c : Nat) (b : Byte) (hc : c < 2 ^ 64) : crc64_byte c b < 2 ^ 64 := by
  unfold crc64_byte
  apply crc64_shift_iter_lt
  exact Nat.xor_lt_two_pow hc (by omega)

theorem crc64_byte_inj (c d : Nat) (b : Byte) (hc : c < 2 ^ 64) (hd : d < 2 ^ 64)
    (h : crc64_byte c b = crc64_byte d b) : c = d := by
  unfold crc64_byte at h
  have hb : b % 256 < 2 ^ 64 := lt_trans (Nat.mod_lt b (by decide)) (by decide)
  have := crc64_shift_iter_inj 8 _ _ (Nat.xor_lt_two_pow hc hb) (Nat.xor_lt_two_pow hd hb) h
  exact Nat.xor_left_injective this

theorem crc64_lt (s : Buffer) (c : Nat) (hc : c < 2 ^ 64) : crc64 c s < 2 ^ 64 := by
  induction s generalizing c with
  | nil => simpa [crc64] using hc
  | cons b s ih =>
    have := ih (crc64_byte c b) (crc64_byte_lt c b hc)
    simpa [crc64] using this

theorem crc64_inj (s : Buffer) (c d : Nat) (hc : c < 2 ^ 64) (hd : d < 2 ^ 64)
    (h : crc64 c s = crc64 d s) : c = d := by
  induction s generalizing c d with
  | nil => simpa [crc64] using h
  | cons b s ih =>
    have h1 : crc64 (crc64_byte c b) s = crc64 (crc64_byte d b) s := by
      simpa [crc64] using h
    exact crc64_byte_inj c d b hc hd
      (ih _ _ (crc64_byte_lt c b hc) (crc64_byte_lt d b hd) h1)

theorem crc64_append (c : Nat) (a b : Buffer) : crc64 c (a ++ b) = crc64 (crc64 c a) b := by
  simp [crc64, List.foldl_append]

theorem crc64_slices (k fuel : Nat) (xs : Buffer) (c : Nat) (hf : xs.length ≤ fuel) :
    (slices k fuel xs).foldl (fun d piece => cksm_callback piece d) c = crc64 c xs := by
  induction fuel generalizing xs c with
  | zero =>
    have : xs = [] := List.length_eq_zero.mp (by omega)
    subst this
    simp [slices, crc64]
  | succ fuel ih =>
    unfold slices
    by_cases hx : xs = []
    · subst hx; simp [crc64]
    · rw [if_neg hx, List.foldl_cons]
      have hpos : 0 < xs.length := List.length_pos.mpr hx
      have hlen : (xs.drop (k + 1)).length ≤ fuel := by
        rw [List.length_drop]; omega
      rw [ih _ _ hlen, cksm_callback, ← crc64_append, List.take_append_drop]

/-! ## IsValidOffsetCksm -/

theorem xor_self_ne (c x : Nat) (hx : x ≠ 0) : c ^^^ x ≠ c := by
  intro h
  apply hx
  have h0 : c ^^^ x = c ^^^ 0 := by simpa using h
  exact Nat.xor_right_injective h0

theorem replay_all_cksm (w : swal_t) (hw : w.wf) (o c : Nat)
    (hs : swal_start_offset w ≤ o) (he : o ≤ swal_end_offset w) :
    (swal_replay w o (swal_end_offset w - o) cksm_callback c).2
      = crc64 c (w.log.drop (o - w.base)) := by
  obtain ⟨hb, -, -⟩ := hw
  have hs1 : w.start_offset ≤ o := hs
  have he1 : o ≤ w.base + w.log.length := he
  have hcond : swal_start_offset w ≤ o ∧ o + (swal_end_offset w - o) ≤ swal_end_offset w := by
    constructor
    · exact hs
    · omega
  unfold swal_replay
  rw [if_pos hcond]
  have hlen : (w.log.drop (o - w.base)).length ≤ swal_end_offset w - o := by
    rw [List.length_drop]; unfold swal_end_offset; omega
  simp only [List.take_of_length_le hlen]
  exact crc64_slices _ _ _ _ (le_refl _)

theorem offset_zero_rejected (w : swal_t) (c : Nat) :
    IsValidOffsetCksm w 0 c = { valid := false, replays := [] } := by
  simp [IsValidOffsetCksm]

theorem zero_cksm_accepted (w : swal_t) (o : Int) (hpos : 0 < o)
    (hs : (swal_start_offset w : Int) ≤ o) (he : o ≤ (swal_end_offset w : Int)) :
    IsValidOffsetCksm w o 0 = { valid := true, replays := [] } := by
  unfold IsValidOffsetCksm
  simp [hpos, hs, he]

/-- C5. For every log, every offset outside the retained window (below
`start_offset` or above `end_offset`) and every checksum, zero or not,
`IsValidOffsetCksm` returns false and makes no `swal_replay` call. -/
theorem IsValidOffsetCksm_outside_window (w : swal_t) (o : Int) (c : Nat)
    (h : o < (swal_start_offset w : Int) ∨ o > (swal_end_offset w : Int)) :
    IsValidOffsetCksm w o c = { valid := false, replays := [] } := by
  unfold IsValidOffsetCksm
  have hv : (decide (o > 0) && decide (o ≤ (swal_end_offset w : Int))
      && decide (o ≥ (swal_start_offset w : Int))) = false := by
    rcases h with h | h
    · have : ¬ (o ≥ (swal_start_offset w : Int)) := by omega
      simp [this]
    · have : ¬ (o ≤ (swal_end_offset w : Int)) := by omega
      simp [this]
  simp only [hv]
  rfl

theorem IsValidOffsetCksm_outside_window_witness :
    ((5 : Int) < (swal_start_offset wrapped_wal : Int)
      ∨ (5 : Int) > (swal_end_offset wrapped_wal : Int))
    ∧ IsValidOffsetCksm wrapped_wal 5 7
        = { valid := false, replays := [] } :=
  ⟨by decide, IsValidOffsetCksm_outside_window _ 5 7 (by decide)⟩

theorem strncmp_eq_zero_iff (ns : Buffer) (mem : Nat → Byte) (h0 : 0 ∉ ns) :
    strncmp (CStr ns) mem ns.length = 0 ↔ peek mem 0 ns.length = ns := by
  induction ns generalizing mem with
  | nil => simp [strncmp, peek]
  | cons a t ih =>
    have ha : a ≠ 0 := fun h => h0 (by simp [h])
    have ht : 0 ∉ t := fun h => h0 (List.mem_cons_of_mem _ h)
    have hpeek : peek mem 0 (t.length + 1) = mem 0 :: peek (fun i => mem (i + 1)) 0 t.length := by
      simp only [peek, List.range_succ_eq_map, List.map_cons, List.map_map]
      simp [Function.comp_def, Nat.add_comm]
    have htail : (fun i => CStr (a :: t) (i + 1)) = CStr t := by
      funext i; simp [CStr]
    have hhead : CStr (a :: t) 0 = a := by simp [CStr]
    rw [List.length_cons, hpeek]
    unfold strncmp
    rw [htail, hhead]
    by_cases hm : a = mem 0
    · rw [if_neg (by simpa using hm), if_neg ha, ih _ ht]
      simp [← hm]
    · rw [if_pos hm]
      constructor
      · intro h
        exfalso
        apply hm
        have : (a : Int) = (mem 0 : Int) := by linarith
        exact_mod_cast this
      · intro h
        exfalso
        exact hm (List.cons.inj h).1.symm

theorem select_differs_iff (w : swal_t) (ns : Buffer) (h0 : 0 ∉ ns) :
    (w.user_meta.select_ns_size ≠ ns.length
      ∨ strncmp (CStr ns) (fun i => w.user_meta.chars (select_ns_off + i)) ns.length ≠ 0)
    ↔ ns ≠ CurrentNamespace w := by
  have hmem : (fun i => w.user_meta.chars (select_ns_off + i)) = w.user_meta.chars := by
    funext i; simp [select_ns_off]
  rw [hmem, Ne, Ne, strncmp_eq_zero_iff ns _ h0]
  unfold CurrentNamespace select_ns_off
  by_cases hsz : w.user_meta.select_ns_size = ns.length
  · by_cases hpos : w.user_meta.select_ns_size > 0
    · simp only [hsz, not_true_eq_false, false_or]
      rw [if_pos (by omega)]
      exact not_congr eq_comm
    · have hz : w.user_meta.select_ns_size = 0 := by omega
      have hnil : ns = [] := List.length_eq_zero.mp (by omega)
      subst hnil
      simp [hz, peek]
  · constructor
    · intro _ h
      apply hsz
      by_cases hpos : w.user_meta.select_ns_size > 0
      · rw [if_pos hpos] at h
        rw [h, peek_length]
      · rw [if_neg hpos] at h
        rw [h]; simp; omega
    · intro _
      exact Or.inl hsz

theorem WriteWAL_ns_same (conf : ArdbConfig) (Encode : RedisCommandFrame → Buffer)
    (w : swal_t) (ns cmd : Buffer) (h0 : 0 ∉ ns) (hsame : ns = CurrentNamespace w) :
    WriteWAL_ns conf Encode w ns cmd = WriteWAL w cmd := by
  have hc := (select_differs_iff w ns h0).not.mpr (not_not.mpr hsame)
  unfold WriteWAL_ns
  simp only [hc, if_false]

theorem WriteWAL_ns_master_differs (conf : ArdbConfig) (hm : conf.master_host = [])
    (Encode : RedisCommandFrame → Buffer) (w : swal_t) (ns cmd : Buffer) (h0 : 0 ∉ ns)
    (hlen : ns.length < 65536) (hdiff : ns ≠ CurrentNamespace w) :
    (WriteWAL_ns conf Encode w ns cmd).2.log = w.log ++ Encode (select_cmd ns) ++ cmd
      ∧ CurrentNamespace (WriteWAL_ns conf Encode w ns cmd).2 = ns := by
  have hc := (select_differs_iff w ns h0).mpr hdiff
  unfold WriteWAL_ns
  simp only [hc, if_true, hm, List.isEmpty_nil]
  constructor
  · simp [WriteWAL, swal_append]
  · simp only [WriteWAL, swal_append, CurrentNamespace, to_uint16, select_ns_off]
    rw [Nat.mod_eq_of_lt hlen]
    by_cases hpos : ns.length > 0
    · rw [if_pos hpos]
      have h1 : peek (poke (memcpy w.user_meta.chars 0 ns ns.length) (0 + ns.length) 0) 0 ns.length
          = peek (memcpy w.user_meta.chars 0 ns ns.length) 0 ns.length := by
        apply peek_congr
        intro i hi
        simp only [poke]
        rw [if_neg (by omega)]
      rw [h1, peek_memcpy_self]
    · rw [if_neg hpos]
      exact (List.length_eq_zero.mp (by omega)).symm

theorem run_WriteWAL_ns_master (conf : ArdbConfig) (hm : conf.master_host = [])
    (Encode : RedisCommandFrame → Buffer) (es : List (Buffer × Buffer)) (w : swal_t)
    (hes : ∀ e ∈ es, 0 ∉ e.1 ∧ e.1.length < 65536) :
    (run_WriteWAL_ns conf Encode w es).2.log
        = w.log ++ select_stream Encode (CurrentNamespace w) es
      ∧ CurrentNamespace (run_WriteWAL_ns conf Encode w es).2
        = ((es.map Prod.fst).getLast?).getD (CurrentNamespace w) := by
  induction es generalizing w with
  | nil => simp [run_WriteWAL_ns, select_stream]
  | cons e es ih =>
    obtain ⟨h0, hlen⟩ := hes e (List.mem_cons_self _ _)
    have hrest : ∀ e' ∈ es, 0 ∉ e'.1 ∧ e'.1.length < 65536 :=
      fun e' he' => hes e' (List.mem_cons_of_mem _ he')
    have hstep : (WriteWAL_ns conf Encode w e.1 e.2).2.log
          = w.log ++ ((if e.1 ≠ CurrentNamespace w then Encode (select_cmd e.1) else []) ++ e.2)
        ∧ CurrentNamespace (WriteWAL_ns conf Encode w e.1 e.2).2 = e.1 := by
      by_cases hd : e.1 = CurrentNamespace w
      · rw [WriteWAL_ns_same conf Encode w e.1 e.2 h0 hd]
        constructor
        · simp [WriteWAL, swal_append, hd]
        · simpa [WriteWAL, swal_append, CurrentNamespace] using hd.symm
      · obtain ⟨h1, h2⟩ := WriteWAL_ns_master_differs conf hm Encode w e.1 e.2 h0 hlen hd
        refine ⟨?_, h2⟩
        rw [h1, if_pos hd, List.append_assoc]
    obtain ⟨hl, hn⟩ := ih (WriteWAL_ns conf Encode w e.1 e.2).2 hrest
    simp only [run_WriteWAL_ns, select_stream]
    rw [hl, hn, hstep.1, hstep.2]
    constructor
    · simp [List.append_assoc, select_cmd]
    · cases es with
      | nil => simp
      | cons e' es' =>
        have hsome : ((e'.1 :: es'.map Prod.fst).getLast?).isSome = true := by
          rw [List.getLast?_isSome]; simp
        obtain ⟨x, hx⟩ := Option.isSome_iff_exists.mp hsome
        simp [hx]

/-- C1. On a master (`master_host` empty), whatever namespace `s0` is selected
at the start, processing envelopes whose namespaces hold no NUL byte and are
shorter than `ARDB_MAX_NAMESPACE_SIZE` with the reactor-side `WriteWAL(ns, cmd)`
appends to the log the concatenation, envelope by envelope, of the encoded
`SELECT ns_i` when `ns_i` differs from the namespace of the preceding envelope
(from `s0` for the first) followed by `cmd_i`, and `CurrentNamespace()` then is
the namespace of the last envelope. In particular namespaces `A, A, B, A` from a
selection other than `A` give
`SELECT A | cmd1 | cmd2 | SELECT B | cmd3 | SELECT A | cmd4`.
The expected stream is written out with the frame of the command `select` and
the namespace as its argument, whatever encoder `Encode` the repository uses.
`ARDB_MAX_NAMESPACE_SIZE` is at most 65536, the record being held in a
4096-byte area. -/
theorem WriteWAL_ns_master_select_stream (N : Nat) (hN : N ≤ 65536)
    (conf : ArdbConfig) (hm : conf.master_host = [])
    (Encode : RedisCommandFrame → Buffer) (w : swal_t) (es : List (Buffer × Buffer))
    (hes : ∀ e ∈ es, 0 ∉ e.1 ∧ e.1.length < N) :
    ((run_WriteWAL_ns conf Encode w es).2.log
        = w.log ++ select_stream Encode (CurrentNamespace w) es
      ∧ CurrentNamespace (run_WriteWAL_ns conf Encode w es).2
        = ((es.map Prod.fst).getLast?).getD (CurrentNamespace w))
    ∧ ∀ A B cmd1 cmd2 cmd3 cmd4 : Buffer,
        0 ∉ A → 0 ∉ B → A.length < N → B.length < N → A ≠ B → CurrentNamespace w ≠ A →
        (run_WriteWAL_ns conf Encode w [(A, cmd1), (A, cmd2), (B, cmd3), (A, cmd4)]).2.log
            = w.log
              ++ (Encode { cmd := [115, 101, 108, 101, 99, 116], args := [A], raw_protocol := [],
                           is_inline := false }
                ++ cmd1 ++ cmd2
                ++ Encode { cmd := [115, 101, 108, 101, 99, 116], args := [B], raw_protocol := [],
                            is_inline := false }
                ++ cmd3
                ++ Encode { cmd := [115, 101, 108, 101, 99, 116], args := [A], raw_protocol := [],
                            is_inline := false }
                ++ cmd4)
          ∧ CurrentNamespace
              (run_WriteWAL_ns conf Encode w [(A, cmd1), (A, cmd2), (B, cmd3), (A, cmd4)]).2
            = A := by
  constructor
  · exact run_WriteWAL_ns_master conf hm Encode es w
      (fun e he => ⟨(hes e he).1, lt_of_lt_of_le (hes e he).2 hN⟩)
  · intro A B cmd1 cmd2 cmd3 cmd4 hA hB hlA hlB hAB hs0
    have hall : ∀ e ∈ [(A, cmd1), (A, cmd2), (B, cmd3), (A, cmd4)],
        0 ∉ e.1 ∧ e.1.length < 65536 := by
      intro e he
      simp only [List.mem_cons, List.mem_singleton, List.not_mem_nil, or_false] at he
      rcases he with h | h | h | h <;> subst h
      · exact ⟨hA, lt_of_lt_of_le hlA hN⟩
      · exact ⟨hA, lt_of_lt_of_le hlA hN⟩
      · exact ⟨hB, lt_of_lt_of_le hlB hN⟩
      · exact ⟨hA, lt_of_lt_of_le hlA hN⟩
    obtain ⟨h1, h2⟩ := run_WriteWAL_ns_master conf hm Encode _ w hall
    constructor
    · rw [h1]
      simp [select_stream, hAB, Ne.symm hAB, Ne.symm hs0]
    · rw [h2]
      simp

theorem WriteWAL_ns_master_select_stream_witness :
    16 ≤ 65536 ∧ master_conf.master_host = []
    ∧ (∀ e ∈ [(([97] : Buffer), ([1, 2] : Buffer)), ([97], [3]), ([98], [4, 5]), ([97], [6])],
        0 ∉ e.1 ∧ e.1.length < 16)
    ∧ (run_WriteWAL_ns master_conf resp_encode fresh_wal
          [([97], [1, 2]), ([97], [3]), ([98], [4, 5]), ([97], [6])]).2.log
        = [42, 50, 13, 10, 36, 54, 13, 10, 115, 101, 108, 101, 99, 116, 13, 10,
            36, 49, 13, 10, 97, 13, 10,
            1, 2,
            3,
            42, 50, 13, 10, 36, 54, 13, 10, 115, 101, 108, 101, 99, 116, 13, 10,
            36, 49, 13, 10, 98, 13, 10,
            4, 5,
            42, 50, 13, 10, 36, 54, 13, 10, 115, 101, 108, 101, 99, 116, 13, 10,
            36, 49, 13, 10, 97, 13, 10,
            6]
    ∧ CurrentNamespace (run_WriteWAL_ns master_conf resp_encode fresh_wal
          [([97], [1, 2]), ([97], [3]), ([98], [4, 5]), ([97], [6])]).2 = [97] :=
  ⟨by decide, rfl, by decide,
    (WriteWAL_ns_master_select_stream 16 (by decide) master_conf rfl resp_encode fresh_wal
      [([97], [1, 2]), ([97], [3]), ([98], [4, 5]), ([97], [6])] (by decide)).1.1.trans
      (by decide),
    (WriteWAL_ns_master_select_stream 16 (by decide) master_conf rfl resp_encode fresh_wal
      [([97], [1, 2]), ([97], [3]), ([98], [4, 5]), ([97], [6])] (by decide)).1.2.trans
      (by decide)⟩

theorem WriteWAL_ns_slave (conf : ArdbConfig) (hs : conf.master_host ≠ [])
    (Encode : RedisCommandFrame → Buffer) (w : swal_t) (ns cmd : Buffer) :
    WriteWAL_ns conf Encode w ns cmd = WriteWAL w cmd := by
  have he : conf.master_host.isEmpty = false := by
    cases h : conf.master_host with
    | nil => exact absurd h hs
    | cons a t => rfl
  unfold WriteWAL_ns
  simp only [he]
  split <;> simp

/-- C2. On a follower (`master_host` not empty), for every metadata record and
every sequence of envelopes, the reactor-side `WriteWAL(ns, cmd)` appends
exactly `cmd_1 | ... | cmd_n`, with no `SELECT` of its own, returns the length
of `cmd_i` at the `i`-th call, and leaves the whole metadata record, so
`select_ns` and `select_ns_size` with it, as it was. -/
theorem WriteWAL_ns_slave_mirrors (conf : ArdbConfig) (hs : conf.master_host ≠ [])
    (Encode : RedisCommandFrame → Buffer) (w : swal_t) (es : List (Buffer × Buffer)) :
    (run_WriteWAL_ns conf Encode w es).1 = es.map (fun e => (e.2.length : Int))
      ∧ (run_WriteWAL_ns conf Encode w es).2.log = w.log ++ (es.map Prod.snd).flatten
      ∧ (run_WriteWAL_ns conf Encode w es).2.user_meta = w.user_meta := by
  induction es generalizing w with
  | nil => simp [run_WriteWAL_ns]
  | cons e es ih =>
    obtain ⟨h1, h2, h3⟩ := ih (WriteWAL w e.2).2
    simp only [run_WriteWAL_ns, WriteWAL_ns_slave conf hs]
    refine ⟨?_, ?_, ?_⟩
    · rw [h1]; simp [WriteWAL]
    · rw [h2]; simp [WriteWAL, swal_append]
    · rw [h3]; simp [WriteWAL, swal_append]

theorem WriteWAL_ns_slave_mirrors_witness :
    slave_conf.master_host ≠ []
    ∧ (run_WriteWAL_ns slave_conf resp_encode fresh_wal
          [([97], [1, 2]), ([97], [3]), ([98], [4, 5]), ([97], [6])]).1
        = [([97], [1, 2]), ([97], [3]), ([98], [4, 5]), ([97], [6])].map
            (fun e : Buffer × Buffer => (e.2.length : Int))
    ∧ (run_WriteWAL_ns slave_conf resp_encode fresh_wal
          [([97], [1, 2]), ([97], [3]), ([98], [4, 5]), ([97], [6])]).2.log
        = fresh_wal.log
            ++ ([([97], [1, 2]), ([97], [3]), ([98], [4, 5]), ([97], [6])].map Prod.snd).flatten
    ∧ (run_WriteWAL_ns slave_conf resp_encode fresh_wal
          [([97], [1, 2]), ([97], [3]), ([98], [4, 5]), ([97], [6])]).2.user_meta
        = fresh_wal.user_meta :=
  ⟨by decide, WriteWAL_ns_slave_mirrors slave_conf (by decide) resp_encode fresh_wal
      [([97], [1, 2]), ([97], [3]), ([98], [4, 5]), ([97], [6])]⟩

/-! ## Replication key -/

/-- C8. For every prior replication key `k` and every string `s`, after
`SetReplKey(s)` the key `GetReplKey()` returns has exactly 40 bytes: the first
`min(|s|, 40)` bytes of `s` followed by the bytes of `k` from that position on
(no zero padding); `IsReplKeySelfGen()` is false; `serverkey`, `select_ns_size`,
the `select_ns` array and the namespace `CurrentNamespace()` returns are as
before. The recorded namespace length is taken to fit the `select_ns` array,
which is what `CurrentNamespace()` needs to read inside it. -/
theorem SetReplKey_overwrites_head (N : Nat) (w : swal_t) (tmpid : Option Buffer)
    (rnd str : Buffer) (hsz : w.user_meta.select_ns_size ≤ N) :
    (ReplicationBacklog.GetReplKey N { m_wal := some (SetReplKey N w str), tmpid := tmpid } rnd).1
        = str.take 40
          ++ ((ReplicationBacklog.GetReplKey N { m_wal := some w, tmpid := tmpid } rnd).1).drop
              (min str.length 40)
      ∧ ((ReplicationBacklog.GetReplKey N
            { m_wal := some (SetReplKey N w str), tmpid := tmpid } rnd).1).length = 40
      ∧ IsReplKeySelfGen (SetReplKey N w str) = false
      ∧ (SetReplKey N w str).user_meta.serverkey N = w.user_meta.serverkey N
      ∧ (SetReplKey N w str).user_meta.select_ns_size = w.user_meta.select_ns_size
      ∧ peek (SetReplKey N w str).user_meta.chars select_ns_off N
          = peek w.user_meta.chars select_ns_off N
      ∧ CurrentNamespace (SetReplKey N w str) = CurrentNamespace w := by
  have hn : (if str.length < SERVER_KEY_SIZE then str.length else SERVER_KEY_SIZE)
      = min str.length 40 := by
    unfold SERVER_KEY_SIZE
    split <;> omega
  have hle : min str.length 40 ≤ str.length := Nat.min_le_left _ _
  have hle40 : min str.length 40 ≤ 40 := Nat.min_le_right _ _
  refine ⟨?_, ?_, rfl, ?_, rfl, ?_, ?_⟩
  · simp only [ReplicationBacklog.GetReplKey, SetReplKey, ReplMeta.replkey, hn]
    unfold SERVER_KEY_SIZE
    have hsplit : ∀ mem : Nat → Byte, peek mem (replkey_off N) 40
        = peek mem (replkey_off N) (min str.length 40)
          ++ peek mem (replkey_off N + min str.length 40) (40 - min str.length 40) := by
      intro mem
      rw [← peek_add]
      congr 1
      omega
    rw [hsplit, peek_memcpy_take _ _ _ _ hle, peek_memcpy_disjoint _ _ _ _ _ _ (Or.inr (le_refl _)),
      drop_peek _ _ _ _ hle40]
    congr 1
    by_cases hlen : str.length ≤ 40
    · rw [Nat.min_eq_left hlen, List.take_of_length_le (le_refl _), List.take_of_length_le hlen]
    · rw [Nat.min_eq_right (by omega)]
  · simp [ReplicationBacklog.GetReplKey, ReplMeta.replkey, peek_length, SERVER_KEY_SIZE]
  · simp only [SetReplKey, ReplMeta.serverkey, hn]
    apply peek_memcpy_disjoint
    left
    unfold serverkey_off replkey_off
    omega
  · simp only [SetReplKey, hn]
    apply peek_memcpy_disjoint
    left
    unfold select_ns_off replkey_off
    omega
  · simp only [SetReplKey, CurrentNamespace, hn]
    split
    · apply peek_memcpy_disjoint
      left
      unfold select_ns_off replkey_off
      omega
    · rfl

theorem SetReplKey_overwrites_head_witness :
    (SetReplKey 16 fresh_wal key_a).user_meta.select_ns_size ≤ 16
    ∧ (ReplicationBacklog.GetReplKey 16
          { m_wal := some (SetReplKey 16 (SetReplKey 16 fresh_wal key_a) [88]), tmpid := none }
          key_b).1
        = [88] ++ List.replicate 39 97
    ∧ IsReplKeySelfGen (SetReplKey 16 (SetReplKey 16 fresh_wal key_a) [88]) = false := by
  have h := SetReplKey_overwrites_head 16 (SetReplKey 16 fresh_wal key_a) none key_b [88]
    (by decide)
  refine ⟨by decide, ?_, h.2.2.1⟩
  rw [h.1]
  decide

/-! ## Initialisation -/

/-- C9, as stated, fails: with a backlog size of 1024 and `swal_open` failing
with code 5, `ReplicationService::Init` returns 0, the very value it returns
when the backlog is disabled. -/
theorem ReplicationService_Init_hides_open_failure :
    master_conf.repl_backlog_size > 0 ∧ failing_env.swal_open_err ≠ 0
      ∧ (ReplicationService.new.Init 16 master_conf failing_env).ret = 0
      ∧ (ReplicationService.new.Init 16 disabled_conf failing_env).ret = 0 := by
  decide

/-- C9, amended. For every configuration with a positive backlog size in which
`swal_open` fails with a non-zero code, `ReplicationBacklog::Init` returns that
code, while `ReplicationService::Init` on a service not yet inited returns 0, as
it does when the backlog is disabled; it has then called `swal_open` only
(neither master nor slave is initialised, the reactor is not started) and the
service stays not inited. -/
theorem ReplicationService_Init_open_failure (N : Nat) (conf : ArdbConfig) (env : InitEnv)
    (s : ReplicationService) (hni : s.m_inited = false)
    (hsz : conf.repl_backlog_size > 0) (herr : env.swal_open_err ≠ 0) :
    (s.m_repl_backlog.Init N conf env).ret = env.swal_open_err
      ∧ (s.Init N conf env).ret = 0
      ∧ (s.Init N conf env).effects = [Effect.swal_open]
      ∧ (s.Init N conf env).state.m_inited = false
      ∧ ∀ conf' : ArdbConfig, conf'.repl_backlog_size ≤ 0 →
          (s.Init N conf' env).ret = (s.Init N conf env).ret := by
  have hnot : ¬ conf.repl_backlog_size ≤ 0 := by omega
  have herr2 : (0 : Int) ≠ env.swal_open_err := fun h => herr h.symm
  have hb : s.m_repl_backlog.Init N conf env
      = { ret := env.swal_open_err, state := s.m_repl_backlog, effects := [Effect.swal_open] } := by
    unfold ReplicationBacklog.Init
    simp only [hnot, if_false, herr2, ne_eq, not_false_eq_true, if_true]
  have hret : (s.Init N conf env).ret = 0 := by
    simp [ReplicationService.Init, ReplicationService.IsInited, hni, hb, herr2]
  refine ⟨by rw [hb], hret, ?_, ?_, ?_⟩
  · simp [ReplicationService.Init, ReplicationService.IsInited, hni, hb, herr2]
  · simp [ReplicationService.Init, ReplicationService.IsInited, hni, hb, herr2]
  · intro conf' hd
    rw [hret]
    simp [ReplicationService.Init, ReplicationService.IsInited, hni, ReplicationBacklog.Init, hd]

theorem ReplicationService_Init_open_failure_witness :
    ReplicationService.new.m_inited = false ∧ master_conf.repl_backlog_size > 0
      ∧ failing_env.swal_open_err ≠ 0
      ∧ (ReplicationService.new.m_repl_backlog.Init 16 master_conf failing_env).ret = 5
      ∧ (ReplicationService.new.Init 16 master_conf failing_env).effects = [Effect.swal_open] := by
  have h := ReplicationService_Init_open_failure 16 master_conf failing_env
    ReplicationService.new rfl (by decide) (by decide)
  exact ⟨rfl, by decide, by decide, h.1, h.2.2.1⟩

theorem Init_generates (N : Nat) (conf : ArdbConfig) (env : InitEnv) (b : ReplicationBacklog)
    (hsz : conf.repl_backlog_size > 0) (herr : env.swal_open_err = 0)
    (hzero : env.swal_open_wal.user_meta.chars (serverkey_off N) = 0) :
    b.Init N conf env =
      { ret := 0,
        state := { b with m_wal := some { env.swal_open_wal with user_meta :=
          { env.swal_open_wal.user_meta with
            chars := memset (memcpy (memcpy env.swal_open_wal.user_meta.chars (serverkey_off N)
              env.randomkey SERVER_KEY_SIZE) (replkey_off N) env.randomkey SERVER_KEY_SIZE)
              select_ns_off 0 N,
            replkey_self_gen := true } } },
        effects := [Effect.swal_open] } := by
  have hnot : ¬ conf.repl_backlog_size ≤ 0 := by omega
  unfold ReplicationBacklog.Init
  simp only [hnot, if_false, herr, ne_eq, not_true_eq_false, hzero, if_true]

theorem generated_keys (N : Nat) (mem : Nat → Byte) (key : Buffer) (hk : key.length = 40) :
    peek (memset (memcpy (memcpy mem (serverkey_off N) key SERVER_KEY_SIZE) (replkey_off N) key
        SERVER_KEY_SIZE) select_ns_off 0 N) (serverkey_off N) SERVER_KEY_SIZE = key
      ∧ peek (memset (memcpy (memcpy mem (serverkey_off N) key SERVER_KEY_SIZE) (replkey_off N) key
        SERVER_KEY_SIZE) select_ns_off 0 N) (replkey_off N) SERVER_KEY_SIZE = key := by
  unfold SERVER_KEY_SIZE serverkey_off replkey_off select_ns_off SERVER_KEY_SIZE
  constructor
  · rw [peek_memset_disjoint _ _ _ _ _ _ (Or.inr (by omega)),
      peek_memcpy_disjoint _ _ _ _ _ _ (Or.inl (le_refl _))]
    have := peek_memcpy_self mem N key
    rwa [hk] at this
  · rw [peek_memset_disjoint _ _ _ _ _ _ (Or.inr (by omega))]
    have := peek_memcpy_self (memcpy mem N key 40) (N + 40) key
    rwa [hk] at this

theorem peek_head_zero (mem : Nat → Byte) (off n k : Nat) (hk : k < n)
    (h : peek mem off n = List.replicate n 0) : mem (off + k) = 0 := by
  have h1 : (peek mem off n)[k]? = (List.replicate n 0)[k]? := by rw [h]
  simpa [peek, hk] using h1

theorem second_byte_kept (N : Nat) (conf : ArdbConfig) (Encode : RedisCommandFrame → Buffer)
    (hsz : conf.repl_backlog_size > 0) (w : swal_t) (op : BacklogOp) (hop : op.in_range N)
    (h1 : w.user_meta.chars (serverkey_off N + 1) ≠ 0) :
    (op.apply N conf Encode w).user_meta.chars (serverkey_off N + 1) ≠ 0 := by
  cases op with
  | SetReplKey str =>
    simp only [BacklogOp.apply, SetReplKey, memcpy, replkey_off, serverkey_off, SERVER_KEY_SIZE]
    rw [if_neg (by omega)]
    exact h1
  | SetCurrentNamespace ns =>
    have hlen : ns.length ≤ N := hop
    simp only [BacklogOp.apply, SetCurrentNamespace, memcpy, select_ns_off, serverkey_off]
    rw [if_neg (by omega)]
    exact h1
  | ClearCurrentNamespace => exact h1
  | WriteWAL ns cmd =>
    have hlen : ns.length ≤ N := hop
    simp only [BacklogOp.apply, WriteWAL_ns, WriteWAL, swal_append]
    split
    · split
      · simp only [poke, memcpy, select_ns_off, serverkey_off]
        rw [if_neg (by omega), if_neg (by omega)]
        exact h1
      · exact h1
    · exact h1
  | Restart randomkey =>
    obtain ⟨hk, h0⟩ : randomkey.length = 40 ∧ 0 ∉ randomkey := hop
    have hnot : ¬ conf.repl_backlog_size ≤ 0 := by omega
    simp only [BacklogOp.apply, ReplicationBacklog.Init, hnot, if_false, open_env, ne_eq,
      not_true_eq_false]
    split
    · simp only [ReplicationBacklog.new, Option.getD_some, memset, memcpy, select_ns_off,
        serverkey_off, replkey_off, SERVER_KEY_SIZE]
      rw [if_neg (by omega), if_neg (by omega), if_pos (by omega)]
      have h1lt : 1 < randomkey.length := by omega
      have hidx : N + 1 - N = 1 := by omega
      rw [hidx, List.getD_eq_getElem?_getD, List.getElem?_eq_getElem h1lt, Option.getD_some]
      intro hz
      exact h0 (hz ▸ List.getElem_mem h1lt)
    · exact h1

/-- Once a key is stored, `serverkey` is never all zero again. Starting from a
log whose `serverkey` is all zero, after the `Init` that draws a first key and
any sequence of calls in range (the four mutators with namespaces of at most
`N` bytes, and restarts), `serverkey` differs from the all-zero sequence. Since
`select_ns_size` is written by those mutators only, a record handed to `Init`
with an all-zero `serverkey` has not had a namespace length recorded. -/
theorem serverkey_never_zero_again (N : Nat) (conf : ArdbConfig)
    (Encode : RedisCommandFrame → Buffer) (hsz : conf.repl_backlog_size > 0) (w0 : swal_t)
    (hz : w0.user_meta.serverkey N = List.replicate 40 0) (key0 : Buffer)
    (hk0 : key0.length = 40 ∧ 0 ∉ key0) (ops : List BacklogOp)
    (hops : ∀ op ∈ ops, op.in_range N) :
    (ops.foldl (BacklogOp.apply N conf Encode)
        ((BacklogOp.Restart key0).apply N conf Encode w0)).user_meta.serverkey N
      ≠ List.replicate 40 0 := by
  have hzero : w0.user_meta.chars (serverkey_off N) = 0 := by
    have := peek_head_zero w0.user_meta.chars (serverkey_off N) 40 0 (by decide) hz
    simpa using this
  have hfirst : ((BacklogOp.Restart key0).apply N conf Encode w0).user_meta.chars
      (serverkey_off N + 1) ≠ 0 := by
    obtain ⟨hk, h0⟩ := hk0
    have hnot : ¬ conf.repl_backlog_size ≤ 0 := by omega
    simp only [BacklogOp.apply, ReplicationBacklog.Init, hnot, if_false, open_env, ne_eq,
      not_true_eq_false, hzero, if_true]
    simp only [ReplicationBacklog.new, Option.getD_some, memset, memcpy, select_ns_off,
      serverkey_off, replkey_off, SERVER_KEY_SIZE]
    rw [if_neg (by omega), if_neg (by omega), if_pos (by omega)]
    have h1lt : 1 < key0.length := by omega
    have hidx : N + 1 - N = 1 := by omega
    rw [hidx, List.getD_eq_getElem?_getD, List.getElem?_eq_getElem h1lt, Option.getD_some]
    intro hz1
    exact h0 (hz1 ▸ List.getElem_mem h1lt)
  have hinv : ∀ (l : List BacklogOp) (w : swal_t), (∀ op ∈ l, op.in_range N) →
      w.user_meta.chars (serverkey_off N + 1) ≠ 0 →
      (l.foldl (BacklogOp.apply N conf Encode) w).user_meta.chars (serverkey_off N + 1) ≠ 0 := by
    intro l
    induction l with
    | nil => intro w _ h; exact h
    | cons op l ih =>
      intro w hl h
      rw [List.foldl_cons]
      exact ih _ (fun o ho => hl o (List.mem_cons_of_mem _ ho))
        (second_byte_kept N conf Encode hsz w op (hl op (List.mem_cons_self _ _)) h)
  intro hall
  exact hinv ops _ hops hfirst (peek_head_zero _ (serverkey_off N) 40 1 (by decide) hall)

/-- What `Init` leaves alone: it does not write `select_ns_size`. On a record
with a zero `serverkey` and a namespace length of 3, which by
`serverkey_never_zero_again` no sequence of calls in range leaves behind, the
length is still 3 after `Init` and `CurrentNamespace()` has three bytes. -/
theorem Init_leaves_select_ns_size : ∀ N : Nat,
    ((ReplicationBacklog.new.Init N master_conf
        (open_env { fresh_wal with user_meta := stale_meta } key_a)).state.m_wal.map
          fun w => (w.user_meta.select_ns_size, (CurrentNamespace w).length))
        = some (3, 3) := by
  intro N
  have hI := Init_generates N master_conf
    (open_env { fresh_wal with user_meta := stale_meta } key_a) ReplicationBacklog.new
    (by decide) rfl rfl
  rw [hI]
  simp [CurrentNamespace, open_env, stale_meta, zero_meta, peek_length]

/-- C7 at a namespace as long as the array, `ARDB_MAX_NAMESPACE_SIZE = n + 1`
being any positive size. A first `Init` on a new directory stores the key
`aaaa...a`; one reactor-side `WriteWAL` on a master with a namespace of `n + 1`
bytes then writes the terminator at `select_ns[n + 1]`, the first byte of
`serverkey`, which reads `0aaa...a` afterwards; and an `Init` run on that
metadata after a restart, finding the byte zero, replaces the key by the newly
drawn `bbbb...b`. -/
theorem WriteWAL_ns_terminator_hits_serverkey :
    ∀ (n : Nat) (Encode : RedisCommandFrame → Buffer) (cmd : Buffer),
      ((ReplicationBacklog.new.Init (n + 1) master_conf (open_env fresh_wal key_a)).state.m_wal.map
          fun w => w.user_meta.serverkey (n + 1)) = some key_a
      ∧ ((ReplicationBacklog.new.Init (n + 1) master_conf (open_env fresh_wal key_a)).state.m_wal.map
          fun w => (WriteWAL_ns master_conf Encode w (List.replicate (n + 1) 97)
            cmd).2.user_meta.serverkey (n + 1)) = some (0 :: List.replicate 39 97)
      ∧ ((ReplicationBacklog.new.Init (n + 1) master_conf (open_env fresh_wal key_a)).state.m_wal.bind
          fun w => (ReplicationBacklog.new.Init (n + 1) master_conf
            (open_env (WriteWAL_ns master_conf Encode w (List.replicate (n + 1) 97) cmd).2
              key_b)).state.m_wal.map fun w2 => w2.user_meta.serverkey (n + 1)) = some key_b := by
  intro n Encode cmd
  have hI := Init_generates (n + 1) master_conf (open_env fresh_wal key_a) ReplicationBacklog.new
    (by decide) rfl rfl
  have hk := generated_keys (n + 1) fresh_wal.user_meta.chars key_a rfl
  have hcond : ∀ c : Nat → Byte, ((0 : Nat) ≠ (List.replicate (n + 1) 97).length
      ∨ strncmp (CStr (List.replicate (n + 1) 97)) (fun i => c (select_ns_off + i))
          (List.replicate (n + 1) 97).length ≠ 0) := fun c => Or.inl (by simp)
  rw [hI]
  simp only [Option.map_some', Option.some_bind, open_env]
  refine ⟨?_, ?_, ?_⟩
  · simp only [ReplMeta.serverkey]
    rw [hk.1]
  · simp only [WriteWAL_ns, fresh_wal, zero_meta, hcond, if_true, master_conf, List.isEmpty_nil,
      WriteWAL, swal_append, ReplMeta.serverkey]
    apply congrArg some
    apply List.ext_getElem
    · simp [peek, SERVER_KEY_SIZE]
    · intro i h1 h2
      have hi : i < 40 := by simpa [peek, SERVER_KEY_SIZE] using h1
      cases i with
      | zero => simp [peek, poke, select_ns_off, serverkey_off]
      | succ j =>
        have hj : j < 39 := by omega
        simp [peek, poke, memcpy, memset, select_ns_off, serverkey_off, replkey_off,
          SERVER_KEY_SIZE, key_a, hj, List.getD_eq_getElem?_getD, hi]
  · have hz : (poke (memcpy (memset (memcpy (memcpy fresh_wal.user_meta.chars (serverkey_off (n + 1))
          key_a SERVER_KEY_SIZE) (replkey_off (n + 1)) key_a SERVER_KEY_SIZE) select_ns_off 0 (n + 1))
          select_ns_off (List.replicate (n + 1) 97) (List.replicate (n + 1) 97).length)
          (select_ns_off + (List.replicate (n + 1) 97).length) 0) (serverkey_off (n + 1)) = 0 := by
      simp [poke, select_ns_off, serverkey_off]
    simp only [WriteWAL_ns, fresh_wal, zero_meta, hcond, if_true, master_conf, List.isEmpty_nil,
      WriteWAL, swal_append]
    rw [Init_generates (n + 1) _ _ ReplicationBacklog.new (by decide) rfl hz]
    simp only [Option.map_some', ReplMeta.serverkey]
    rw [(generated_keys (n + 1) _ key_b rfl).1]

/-- Below the limit the key is safe: `SetCurrentNamespace` with a namespace of at
most `N` bytes, `ClearCurrentNamespace`, the reactor-side `WriteWAL` with a
namespace shorter than `N`, and an `Init` that opens a log whose `serverkey`
starts with a non-zero byte all leave `serverkey` as it was. -/
theorem serverkey_stable_below_limit (N : Nat) (conf : ArdbConfig)
    (Encode : RedisCommandFrame → Buffer) (w : swal_t) (ns cmd : Buffer) :
    (ns.length ≤ N →
        (SetCurrentNamespace w ns).user_meta.serverkey N = w.user_meta.serverkey N)
      ∧ (ClearCurrentNamespace w).user_meta.serverkey N = w.user_meta.serverkey N
      ∧ (ns.length < N →
        (WriteWAL_ns conf Encode w ns cmd).2.user_meta.serverkey N = w.user_meta.serverkey N)
      ∧ ∀ (env : InitEnv) (b : ReplicationBacklog), conf.repl_backlog_size > 0 →
          env.swal_open_err = 0 → env.swal_open_wal = w → w.user_meta.chars (serverkey_off N) ≠ 0 →
          (b.Init N conf env).state.m_wal = some w := by
  refine ⟨?_, rfl, ?_, ?_⟩
  · intro hlen
    simp only [SetCurrentNamespace, ReplMeta.serverkey]
    apply peek_memcpy_disjoint
    right
    unfold select_ns_off serverkey_off
    omega
  · intro hlen
    unfold WriteWAL_ns
    simp only [WriteWAL, swal_append]
    split
    · split
      · simp only [ReplMeta.serverkey]
        rw [peek_poke_disjoint _ _ _ _ _ (Or.inl (by unfold select_ns_off serverkey_off; omega)),
          peek_memcpy_disjoint _ _ _ _ _ _ (Or.inr (by unfold select_ns_off serverkey_off; omega))]
      · rfl
    · rfl
  · intro env b hsz herr hw hnz
    have hnot : ¬ conf.repl_backlog_size ≤ 0 := by omega
    unfold ReplicationBacklog.Init
    simp only [hnot, if_false, herr, ne_eq, not_true_eq_false, hw, hnz]

/-! ## Disabled mode -/

theorem run_disabled (N : Nat) (conf : ArdbConfig) (Encode : RedisCommandFrame → Buffer)
    (hd : conf.repl_backlog_size ≤ 0) (cs : List Call) (s : ReplicationService)
    (hni : s.m_inited = false) (hw : s.m_repl_backlog.m_wal = none) :
    (ReplicationService.run N conf Encode s cs).1
        = cs.map (disabled_reply ((s.m_repl_backlog.tmpid).getD ((first_rnd cs).getD [])))
      ∧ (ReplicationService.run N conf Encode s cs).2.m_inited = false
      ∧ (ReplicationService.run N conf Encode s cs).2.m_repl_backlog.m_wal = none
      ∧ (ReplicationService.run N conf Encode s cs).2.g_repl_cmd_buffer = s.g_repl_cmd_buffer
      ∧ (ReplicationService.run N conf Encode s cs).2.async_tasks = s.async_tasks := by
  induction cs generalizing s with
  | nil => simp [ReplicationService.run, hni, hw]
  | cons c cs ih =>
    cases c with
    | Init env =>
      have hstep : s.call N conf Encode (Call.Init env) = (Reply.code 0 [], s) := by
        simp [ReplicationService.call, ReplicationService.Init, ReplicationService.IsInited, hni,
          ReplicationBacklog.Init, hd]
        cases s
        simp_all
      obtain ⟨h1, h2, h3, h4, h5⟩ := ih s hni hw
      simp only [ReplicationService.run, hstep, List.map_cons, disabled_reply, first_rnd]
      exact ⟨by rw [h1], h2, h3, h4, h5⟩
    | WriteWAL ns cmd =>
      have hstep : s.call N conf Encode (Call.WriteWAL ns cmd) = (Reply.code (-1) [], s) := by
        simp [ReplicationService.call, WriteWAL_frame, ReplicationService.IsInited, hni]
      obtain ⟨h1, h2, h3, h4, h5⟩ := ih s hni hw
      simp only [ReplicationService.run, hstep, List.map_cons, disabled_reply, first_rnd]
      exact ⟨by rw [h1], h2, h3, h4, h5⟩
    | GetReplKey rnd =>
      cases ht : s.m_repl_backlog.tmpid with
      | some t =>
        have hstep : s.call N conf Encode (Call.GetReplKey rnd) = (Reply.key t, s) := by
          simp [ReplicationService.call, ReplicationBacklog.GetReplKey, hw, ht]
        obtain ⟨h1, h2, h3, h4, h5⟩ := ih s hni hw
        simp only [ReplicationService.run, hstep, List.map_cons, disabled_reply, first_rnd]
        rw [ht] at h1
        exact ⟨by rw [h1]; simp, h2, h3, h4, h5⟩
      | none =>
        have hstep : s.call N conf Encode (Call.GetReplKey rnd)
            = (Reply.key rnd, { s with m_repl_backlog :=
                { s.m_repl_backlog with tmpid := some rnd } }) := by
          simp [ReplicationService.call, ReplicationBacklog.GetReplKey, hw, ht]
        obtain ⟨h1, h2, h3, h4, h5⟩ := ih { s with m_repl_backlog :=
          { s.m_repl_backlog with tmpid := some rnd } } hni hw
        simp only [ReplicationService.run, hstep, List.map_cons, disabled_reply, first_rnd]
        exact ⟨by rw [h1]; simp, h2, h3, h4, h5⟩

/-- C10. With `repl_backlog_size <= 0`, for every sequence of calls made on
the service as constructed: `ReplicationService::Init` returns 0 without any
call to `swal_open` or to `Start`, and the service stays not inited with
`m_wal` still `NULL`; every producer-side `WriteWAL(ns, command)` returns -1
without taking an envelope from the pool or handing a task to the reactor; and
every `GetReplKey()` returns one and the same string, the one drawn at the
first such call, which has 40 characters as `random_hex_string(40)` yields. -/
theorem disabled_mode (N : Nat) (conf : ArdbConfig) (Encode : RedisCommandFrame → Buffer)
    (hd : conf.repl_backlog_size ≤ 0) (cs : List Call)
    (hrnd : ∀ rnd, first_rnd cs = some rnd → rnd.length = 40) :
    (ReplicationService.run N conf Encode ReplicationService.new cs).1
        = cs.map (disabled_reply ((first_rnd cs).getD []))
      ∧ (∀ k, Reply.key k ∈ (ReplicationService.run N conf Encode ReplicationService.new cs).1 →
          k = (first_rnd cs).getD [] ∧ k.length = 40)
      ∧ (ReplicationService.run N conf Encode ReplicationService.new cs).2.m_inited = false
      ∧ (ReplicationService.run N conf Encode ReplicationService.new cs).2.m_repl_backlog.m_wal
          = none
      ∧ (ReplicationService.run N conf Encode ReplicationService.new cs).2.g_repl_cmd_buffer = []
      ∧ (ReplicationService.run N conf Encode ReplicationService.new cs).2.async_tasks = [] := by
  obtain ⟨h1, h2, h3, h4, h5⟩ :=
    run_disabled N conf Encode hd cs ReplicationService.new rfl rfl
  have h1' : (ReplicationService.run N conf Encode ReplicationService.new cs).1
      = cs.map (disabled_reply ((first_rnd cs).getD [])) := by
    rw [h1]; rfl
  refine ⟨h1', ?_, h2, h3, h4, h5⟩
  intro k hk
  rw [h1', List.mem_map] at hk
  obtain ⟨c, hc, hcr⟩ := hk
  have hsome : ∀ (l : List Call), c ∈ l → (∃ r, c = Call.GetReplKey r) →
      ∃ rnd, first_rnd l = some rnd := by
    intro l
    induction l with
    | nil => intro h; simp at h
    | cons d l ihl =>
      intro hmem hget
      cases d with
      | GetReplKey r => exact ⟨r, rfl⟩
      | Init env =>
        rcases List.mem_cons.mp hmem with h | h
        · obtain ⟨r, hr⟩ := hget
          rw [hr] at h
          cases h
        · simpa [first_rnd] using ihl h hget
      | WriteWAL ns cmd =>
        rcases List.mem_cons.mp hmem with h | h
        · obtain ⟨r, hr⟩ := hget
          rw [hr] at h
          cases h
        · simpa [first_rnd] using ihl h hget
  cases c with
  | Init env => simp [disabled_reply] at hcr
  | WriteWAL ns cmd => simp [disabled_reply] at hcr
  | GetReplKey r =>
    simp only [disabled_reply, Reply.key.injEq] at hcr
    obtain ⟨rnd, hr⟩ := hsome cs hc ⟨r, rfl⟩
    refine ⟨hcr.symm, ?_⟩
    rw [← hcr, hr]
    exact hrnd rnd hr

theorem disabled_mode_witness :
    disabled_conf.repl_backlog_size ≤ 0
    ∧ (∀ rnd, first_rnd [Call.Init failing_env, Call.WriteWAL [97] set_cmd,
          Call.GetReplKey key_a, Call.Init (open_env fresh_wal key_b),
          Call.GetReplKey key_b] = some rnd → rnd.length = 40)
    ∧ (ReplicationService.run 16 disabled_conf resp_encode ReplicationService.new
          [Call.Init failing_env, Call.WriteWAL [97] set_cmd, Call.GetReplKey key_a,
            Call.Init (open_env fresh_wal key_b), Call.GetReplKey key_b]).1
        = [Reply.code 0 [], Reply.code (-1) [], Reply.key key_a, Reply.code 0 [],
            Reply.key key_a] := by
  have hr : ∀ rnd, first_rnd [Call.Init failing_env, Call.WriteWAL [97] set_cmd,
      Call.GetReplKey key_a, Call.Init (open_env fresh_wal key_b),
      Call.GetReplKey key_b] = some rnd → rnd.length = 40 := by
    intro rnd h
    simp only [first_rnd, Option.some.injEq] at h
    rw [← h]
    rfl
  have h := disabled_mode 16 disabled_conf resp_encode (by decide) _ hr
  exact ⟨by decide, hr, h.1⟩

end Ardb
